import Mathlib

/-
  Verification development for the slang driver source loader
  (source/driver/SourceLoader.cpp).

  The C++ code is embedded shallowly:
  * filesystem paths, patterns and library names are `String`s;
  * source buffers are identified by `Nat` ids;
  * glob ranks and error codes are `Nat`s;
  * external collaborators (svGlob, SourceManager::readSource, the
    syntax-tree parser and its metadata) are supplied as function
    parameters, so every theorem quantifies over their behaviour;
  * stateful registries become explicit record states threaded through
    pure functions.
-/

set_option autoImplicit false

namespace SlangLoader

/-- A registered source file, mirroring `SourceLoader::FileEntry`.
The struct itself is declared in SourceLoader.h; its field defaults are
modelled from the spec (section 3): a fresh entry has no tie recorded.
Libraries are identified here by their (unique, non-empty) name. -/
structure FileEntry where
  path : String
  isLibraryFile : Bool
  library : Option String
  libraryRank : Nat
  secondLib : Option String
deriving DecidableEq

/-- The loader's registries: the insertion-ordered file-entry list, the
path-to-index map `fileIndex`, the named-library registry, the search
directory list, the retained library-map documents and the append-only
error list (pairs of path-or-pattern and error code). -/
structure LoaderState where
  fileEntries : List FileEntry
  fileIndex : List (String × Nat)
  libraries : List String
  searchDirectories : List String
  libraryMapTrees : List Nat
  errors : List (String × Nat)
deriving DecidableEq

def emptyLoader : LoaderState := ⟨[], [], [], [], [], []⟩

/-- Lookup in the path-to-index map (`fileIndex.try_emplace` probe). -/
def lookupIndex (ix : List (String × Nat)) (p : String) : Option Nat :=
  (ix.find? (fun q => q.1 == p)).map (fun q => q.2)

/-- In-place update of the i-th element (`fileEntries[it->second]`). -/
def modifyAt {α : Type} : List α → Nat → (α → α) → List α
  | [], _, _ => []
  | x :: xs, 0, f => f x :: xs
  | x :: xs, n + 1, f => x :: modifyAt xs n f

/-- The merge `addFilesInternal` performs when a path was already
registered: `entry.isLibraryFile &= isLibraryFile`, then the rank-based
library reconciliation (adopt on no-library-or-lower-rank, record
`secondLib` on equal rank, ignore on higher rank). -/
def updateEntry (isLibraryFile : Bool) (library : Option String) (rank : Nat)
    (entry : FileEntry) : FileEntry :=
  let entry := { entry with isLibraryFile := entry.isLibraryFile && isLibraryFile }
  match library with
  | none => entry
  | some lib =>
    if entry.library.isNone || rank < entry.libraryRank then
      { entry with library := some lib, libraryRank := rank }
    else if rank == entry.libraryRank then
      { entry with secondLib := some lib }
    else
      entry

/-- Registration of one globbed path: the loop body of
`SourceLoader::addFilesInternal`. A new path is appended to both the
index map (at the pre-insertion entry count) and the entry list; a seen
path is merged via `updateEntry`. -/
def registerPath (s : LoaderState) (path : String) (isLibraryFile : Bool)
    (library : Option String) (rank : Nat) : LoaderState :=
  match lookupIndex s.fileIndex path with
  | none =>
    { s with
      fileIndex := s.fileIndex ++ [(path, s.fileEntries.length)]
      fileEntries := s.fileEntries ++ [⟨path, isLibraryFile, library, rank, none⟩] }
  | some i =>
    { s with fileEntries := modifyAt s.fileEntries i (updateEntry isLibraryFile library rank) }

/-- `SourceLoader::getOrAddLibrary`: empty names yield no library;
otherwise the library is created on first reference. -/
def getOrAddLibrary (s : LoaderState) (name : String) : LoaderState × Option String :=
  if name == "" then (s, none)
  else if s.libraries.contains name then (s, some name)
  else ({ s with libraries := s.libraries ++ [name] }, some name)

/-- Top-level members of a parsed library-map document
(`LibraryMapSyntax` members; config and empty members are no-ops). -/
inductive MapMember where
  | config
  | emptyMember
  | includeStmt (filePath : String)
  | libraryDecl (name : String) (filePaths : List String)

/-- `getPathFromSpec`: strip one leading and one trailing delimiter
character; specs shorter than 3 characters give the empty string. -/
def getPathFromSpec (s : String) : String :=
  if s.length < 3 then "" else (s.drop 1).dropRight 1

/-- External collaborators of the registration entry points:
`globFiles basePath pattern expandEnvVars` models `svGlob` in file mode
(returning the matched paths and the pattern's rank), `globDirs` models
it in directory mode, `read` models `SourceManager::readSource` with a
null library, `parseMap` models `SyntaxTree::fromLibraryMapBuffer` plus
the member walk, and `parentDir` models `path.parent_path()`. -/
structure MapEnv where
  globFiles : String → String → Bool → Except Nat (List String × Nat)
  globDirs : String → Except Nat (List String)
  read : String → Except Nat Nat
  parseMap : Nat → List MapMember
  parentDir : String → String

/-- `SourceLoader::addFilesInternal`: glob the pattern, record the error
and return early on failure, otherwise register every matched path at
the glob's rank. -/
def addFilesInternal (env : MapEnv) (s : LoaderState) (pattern basePath : String)
    (isLibraryFile : Bool) (library : Option String) (expandEnvVars : Bool) : LoaderState :=
  match env.globFiles basePath pattern expandEnvVars with
  | .error ec => { s with errors := s.errors ++ [(pattern, ec)] }
  | .ok (files, rank) =>
    files.foldl (fun st p => registerPath st p isLibraryFile library rank) s

/-- `SourceLoader::addFiles`. -/
def addFiles (env : MapEnv) (s : LoaderState) (pattern : String) : LoaderState :=
  addFilesInternal env s pattern "" false none false

/-- `SourceLoader::addLibraryFiles` (note: the library is created by
`getOrAddLibrary` before the glob runs). -/
def addLibraryFiles (env : MapEnv) (s : LoaderState) (libName pattern : String) : LoaderState :=
  let r := getOrAddLibrary s libName
  addFilesInternal env r.1 pattern "" true r.2 false

/-- `SourceLoader::addSearchDirectories`: glob in directory mode, record
the error and return early on failure, else append the directories. -/
def addSearchDirectories (env : MapEnv) (s : LoaderState) (pattern : String) : LoaderState :=
  match env.globDirs pattern with
  | .error ec => { s with errors := s.errors ++ [(pattern, ec)] }
  | .ok dirs => { s with searchDirectories := s.searchDirectories ++ dirs }

/-- `SourceLoader::createLibrary`: skip empty names, create/fetch the
library, and register each (stripped, non-empty) file-path spec as a
library file relative to the declaring document's directory. -/
def createLibrary (env : MapEnv) (s : LoaderState) (libName : String)
    (filePaths : List String) (basePath : String) : LoaderState :=
  if libName == "" then s
  else
    let r := getOrAddLibrary s libName
    filePaths.foldl
      (fun st fp =>
        let spec := getPathFromSpec fp
        if spec == "" then st
        else addFilesInternal env st spec basePath true r.2 true)
      r.1

/-- `SourceLoader::addLibraryMaps`: glob the pattern (recording the
error and returning early on failure); for each matched document, read
it (read failures are recorded and the document skipped), retain the
parsed map, then walk its members: includes recurse with the including
document's parent directory as base path, library declarations go
through `createLibrary`. The C++ recursion has no cycle guard (spec
section 9 flags this as an open question); the embedding bounds it by
an explicit recursion-depth fuel. -/
def addLibraryMaps (env : MapEnv) : Nat → LoaderState → String → String → Bool → LoaderState
  | 0, s, _, _, _ => s
  | fuel + 1, s, pattern, basePath, expandEnvVars =>
    match env.globFiles basePath pattern expandEnvVars with
    | .error ec => { s with errors := s.errors ++ [(pattern, ec)] }
    | .ok (files, _) =>
      files.foldl
        (fun st path =>
          match env.read path with
          | .error ec => { st with errors := st.errors ++ [(path, ec)] }
          | .ok buf =>
            let st := { st with libraryMapTrees := st.libraryMapTrees ++ [buf] }
            (env.parseMap buf).foldl
              (fun st2 member =>
                match member with
                | .config => st2
                | .emptyMember => st2
                | .includeStmt fp =>
                  let spec := getPathFromSpec fp
                  if spec == "" then st2
                  else addLibraryMaps env fuel st2 spec (env.parentDir path) true
                | .libraryDecl name filePaths =>
                  createLibrary env st2 name filePaths (env.parentDir path))
              st)
        s

/-- The slice of `SourceOptions` the loader consults. `numThreads`
models `std::optional<uint32_t>`; the C++ comparison `numThreads != 1u`
is true when the optional is empty or holds a value other than 1. -/
structure SourceOptionsM where
  singleUnit : Bool
  librariesInheritMacros : Bool
  onlyLint : Bool
  numThreads : Option Nat
deriving DecidableEq

/-- A syntax tree as far as the loader's claims observe it: which parse
call built it (one buffer plus an inherited-macro list, or the
concatenation of the single-unit buffers) and its `isLibrary` flag.
Macro identities are `Nat`s; an eager parse passes no inherited macros
(the C++ overload's empty default span). -/
inductive ModelTree where
  | fromBuffer (buffer : Nat) (inheritedMacros : List Nat) (isLibrary : Bool)
  | fromBuffers (buffers : List Nat) (isLibrary : Bool)
deriving DecidableEq

/-- `SourceLoader::LoadResult`: a finished tree, a deferred buffer
(tagged with `isDeferredLib`), or a load error for an entry's path. -/
inductive LoadResult where
  | tree (t : ModelTree)
  | buffer (b : Nat) (isDeferredLib : Bool)
  | err (path : String) (code : Nat)
deriving DecidableEq

/-- `SourceLoader::loadAndParse`. `read` models
`SourceManager::readSource(path, library)`. The C++ body carries
`SLANG_ASSERT(entry.isLibraryFile)` in the macro-inheriting deferral
branch (the `.buffer _ true` result); the assertion itself has no
effect on the returned value and is analysed separately. -/
def loadAndParse (read : String → Option String → Except Nat Nat)
    (srcOptions : SourceOptionsM) (entry : FileEntry) : LoadResult :=
  match read entry.path entry.library with
  | .error code => .err entry.path code
  | .ok buffer =>
    if !entry.isLibraryFile && srcOptions.singleUnit then
      .buffer buffer false
    else if srcOptions.librariesInheritMacros then
      .buffer buffer true
    else
      .tree (.fromBuffer buffer [] (entry.isLibraryFile || srcOptions.onlyLint))

/-- The mutable collections of `loadAndParseSources` while the per-file
pass runs. -/
structure Phase1State where
  trees : List ModelTree
  singleUnitBuffers : List Nat
  deferredLibBuffers : List Nat
  errors : List (String × Nat)
deriving DecidableEq

/-- The `handleLoadResult` lambda: trees are appended, deferred buffers
are routed by their tag, errors are appended to the shared list. -/
def handleLoadResult (st : Phase1State) (r : LoadResult) : Phase1State :=
  match r with
  | .tree t => { st with trees := st.trees ++ [t] }
  | .buffer b true => { st with deferredLibBuffers := st.deferredLibBuffers ++ [b] }
  | .buffer b false => { st with singleUnitBuffers := st.singleUnitBuffers ++ [b] }
  | .err p c => { st with errors := st.errors ++ [(p, c)] }

/-- The `parseSingleUnit` lambda. `definedMacros` models
`getDefinedMacros()` of the tree built from the collected single-unit
buffers (the ambient options are fixed). Returns the updated state and
the published inherited-macro list, which stays empty (the initial
empty span) when no single-unit buffers were collected. -/
def parseSingleUnit (definedMacros : List Nat → List Nat) (onlyLint : Bool)
    (st : Phase1State) : Phase1State × List Nat :=
  if st.singleUnitBuffers.isEmpty then (st, [])
  else
    ({ st with trees := st.trees ++ [ModelTree.fromBuffers st.singleUnitBuffers onlyLint] },
      definedMacros st.singleUnitBuffers)

/-- Models a `ThreadPool::pushLoop` over a pre-sized, index-addressed
slot array: slot i holds `f input[i]` and depends on nothing else, so
the post-barrier content is exactly the in-order image. -/
def parMap {α β : Type} (f : α → β) (l : List α) : List β := l.map f

/-- The deferred-library pass of the sequential branch: if any deferred
macro-inheriting buffers were collected, parse them one by one in
order, appending each resulting library tree. The input pair carries
the state and the published inherited-macro list. -/
def seqDeferred (p : Phase1State × List Nat) : Phase1State × List Nat :=
  if p.1.deferredLibBuffers.isEmpty then p
  else
    (p.1.deferredLibBuffers.foldl
      (fun st b => { st with trees := st.trees ++ [ModelTree.fromBuffer b p.2 true] }) p.1,
     p.2)

/-- The deferred-library pass of the thread-pool branch: the tree list
is resized and each worker writes tree numTrees+i for buffer i — i.e.
the tree list is extended by the in-order image of the buffers. -/
def thrDeferred (p : Phase1State × List Nat) : Phase1State × List Nat :=
  if p.1.deferredLibBuffers.isEmpty then p
  else
    ({ p.1 with
        trees := p.1.trees
          ++ parMap (fun b => ModelTree.fromBuffer b p.2 true) p.1.deferredLibBuffers },
     p.2)

/-- The sequential branch of `loadAndParseSources` (no thread pool):
handle each entry's load result in file order, parse the single unit,
then run the deferred-library pass. `errs0` is the loader's error list
on entry to the call. -/
def phase1Seq (read : String → Option String → Except Nat Nat)
    (definedMacros : List Nat → List Nat) (opts : SourceOptionsM)
    (errs0 : List (String × Nat)) (entries : List FileEntry) : Phase1State × List Nat :=
  seqDeferred (parseSingleUnit definedMacros opts.onlyLint
    (entries.foldl (fun st e => handleLoadResult st (loadAndParse read opts e))
      ⟨[], [], [], errs0⟩))

/-- The thread-pool branch of `loadAndParseSources`: the per-file loads
fill an index-addressed result array (each worker writing only its own
slots), the results are merged in order after the barrier, the single
unit is parsed on one thread, then the threaded deferred-library pass
runs. -/
def phase1Threaded (read : String → Option String → Except Nat Nat)
    (definedMacros : List Nat → List Nat) (opts : SourceOptionsM)
    (errs0 : List (String × Nat)) (entries : List FileEntry) : Phase1State × List Nat :=
  thrDeferred (parseSingleUnit definedMacros opts.onlyLint
    ((parMap (loadAndParse read opts) entries).foldl handleLoadResult ⟨[], [], [], errs0⟩))

/-- The branch split at the top of `loadAndParseSources`: the thread
pool is used when the entry count reaches `MinFilesForThreading` (a
header constant, passed here as a parameter) and `numThreads != 1`. -/
def phase1 (minFilesForThreading : Nat) (read : String → Option String → Except Nat Nat)
    (definedMacros : List Nat → List Nat) (opts : SourceOptionsM)
    (errs0 : List (String × Nat)) (entries : List FileEntry) : Phase1State × List Nat :=
  if minFilesForThreading ≤ entries.length ∧ opts.numThreads ≠ some 1 then
    phase1Threaded read definedMacros opts errs0 entries
  else
    phase1Seq read definedMacros opts errs0 entries

/-- The eager outcome of a load result, if any. -/
def resultTree : LoadResult → Option ModelTree
  | .tree t => some t
  | _ => none

/-- The collected single-unit buffer of a load result, if any. -/
def resultSingleUnitBuf : LoadResult → Option Nat
  | .buffer b false => some b
  | _ => none

/-- The deferred macro-inheriting library buffer of a load result. -/
def resultDeferredLibBuf : LoadResult → Option Nat
  | .buffer b true => some b
  | _ => none

/-- The error record of a load result, if any. -/
def resultErr : LoadResult → Option (String × Nat)
  | .err p c => some (p, c)
  | _ => none

/-- The eagerly produced trees, in file-entry order. -/
def eagerTrees (read : String → Option String → Except Nat Nat) (opts : SourceOptionsM)
    (entries : List FileEntry) : List ModelTree :=
  entries.filterMap (fun e => resultTree (loadAndParse read opts e))

/-- The collected single-unit buffers, in file-entry order. -/
def suBufsOf (read : String → Option String → Except Nat Nat) (opts : SourceOptionsM)
    (entries : List FileEntry) : List Nat :=
  entries.filterMap (fun e => resultSingleUnitBuf (loadAndParse read opts e))

/-- The deferred macro-inheriting library buffers, in file-entry order. -/
def dlBufsOf (read : String → Option String → Except Nat Nat) (opts : SourceOptionsM)
    (entries : List FileEntry) : List Nat :=
  entries.filterMap (fun e => resultDeferredLibBuf (loadAndParse read opts e))

/-- The error records produced by the per-file pass, in order. -/
def errsOf (read : String → Option String → Except Nat Nat) (opts : SourceOptionsM)
    (entries : List FileEntry) : List (String × Nat) :=
  entries.filterMap (fun e => resultErr (loadAndParse read opts e))

/-- The inherited-macro list published by the single-unit parse. -/
def inheritedOf (read : String → Option String → Except Nat Nat)
    (definedMacros : List Nat → List Nat) (opts : SourceOptionsM)
    (entries : List FileEntry) : List Nat :=
  if (suBufsOf read opts entries).isEmpty then []
  else definedMacros (suBufsOf read opts entries)

/-- The environment of the search-directory discovery phase:
`fs` is the finite filesystem, an association of existing candidate
paths to the buffer a successful `readSource` yields; `dirs` and `exts`
are the registered search directories and extensions in registration
order; `inherited` is the finalized inherited-macro list; `treeDecls`
and `treeRefs` model the tree metadata consumed by `addKnownNames`
(module-like and class declaration names) and `findMissingNames`
(instantiations, class-package qualifiers, package imports, interface
ports — collapsed into one reference list, empty names already
filtered). -/
structure DiscEnv where
  fs : List (String × Nat)
  dirs : List String
  exts : List String
  inherited : List Nat
  treeDecls : ModelTree → List String
  treeRefs : ModelTree → List String

/-- Candidate path for directory, name and extension: `path = dir;
path /= name; path.replace_extension(ext)` (names are assumed dot-free,
as module identifiers are, so replacing the extension appends it). -/
def mkCandidate (dir name ext : String) : String := dir ++ "/" ++ name ++ ext

/-- Whether a path exists on the modelled filesystem, and with which
buffer a read returns. -/
def lookupFs (fs : List (String × Nat)) (p : String) : Option Nat :=
  (fs.find? (fun q => q.1 == p)).map (fun q => q.2)

/-- The state mutated by the discovery loop: the source manager's
read cache, the known-name set and the accumulated tree list. -/
structure DiscState where
  cache : List String
  known : List String
  trees : List ModelTree
deriving DecidableEq

/-- The inner extension loop of the discovery search: skip cached
candidate paths, accept the first uncached one that reads
successfully. -/
def searchExts (fs : List (String × Nat)) (cache : List String) (dir name : String) :
    List String → Option (String × Nat)
  | [] => none
  | ext :: rest =>
    if mkCandidate dir name ext ∈ cache then searchExts fs cache dir name rest
    else
      match lookupFs fs (mkCandidate dir name ext) with
      | some b => some (mkCandidate dir name ext, b)
      | none => searchExts fs cache dir name rest

/-- The directory loop of the discovery search: first directory whose
extension loop succeeds wins. -/
def searchDirsFor (fs : List (String × Nat)) (cache : List String) (exts : List String)
    (name : String) : List String → Option (String × Nat)
  | [] => none
  | dir :: rest =>
    match searchExts fs cache dir name exts with
    | some r => some r
    | none => searchDirsFor fs cache exts name rest

/-- Set-style insertion into a name list (the hash sets of the C++
code dedup; membership is what matters). -/
def insertName (l : List String) (n : String) : List String :=
  if n ∈ l then l else l ++ [n]

/-- `addKnownNames` for one tree: add its declaration names. -/
def addKnownNames (known : List String) (decls : List String) : List String :=
  decls.foldl insertName known

/-- `findMissingNames` for one tree: add every referenced name not
currently known to the missing set. -/
def addMissingRefs (known : List String) (missing : List String)
    (refs : List String) : List String :=
  refs.foldl (fun acc n => if n ∈ known then acc else insertName acc n) missing

/-- Processing of one missing name inside a discovery round: search the
directories; on failure nothing changes, on success the path is read
(entering the cache), parsed with the finalized inherited-macro list,
marked as a library tree, appended to the output, its declarations made
known and its unknown references added to the next-round set. -/
def discoverName (env : DiscEnv) (s : DiscState) (next : List String) (name : String) :
    DiscState × List String :=
  match searchDirsFor env.fs s.cache env.exts name env.dirs with
  | none => (s, next)
  | some (p, b) =>
    let t := ModelTree.fromBuffer b env.inherited true
    let known := addKnownNames s.known (env.treeDecls t)
    (⟨s.cache ++ [p], known, s.trees ++ [t]⟩,
      addMissingRefs known next (env.treeRefs t))

/-- One round of the discovery loop: process every currently missing
name, starting from an empty next-round set. -/
def discoverRound (env : DiscEnv) (s : DiscState) (missing : List String) :
    DiscState × List String :=
  missing.foldl (fun acc name => discoverName env acc.1 acc.2 name) (s, [])

/-- The `while (true)` discovery loop, bounded by an explicit fuel; the
loop exits when a round produces an empty next-round set. The
termination theorem shows that fuel exceeding the number of unloaded
filesystem entries always suffices. -/
def discoverLoopFuel (env : DiscEnv) : Nat → DiscState → List String → Option DiscState
  | 0, _, _ => none
  | fuel + 1, s, missing =>
    if (discoverRound env s missing).2.isEmpty then some (discoverRound env s missing).1
    else discoverLoopFuel env fuel (discoverRound env s missing).1 (discoverRound env s missing).2

/-- Number of filesystem entries whose path is not yet cached: the
termination measure of the discovery loop. -/
def unloadedCount (fs : List (String × Nat)) (cache : List String) : Nat :=
  (fs.filter (fun q => decide (q.1 ∉ cache))).length

/-- All candidate paths tried for a missing name, in search order:
directories in registration order and, within a directory, extensions
in registration order. -/
def candidatePaths (dirs exts : List String) (name : String) : List String :=
  dirs.flatMap (fun d => exts.map (fun e => mkCandidate d name e))

/-- The first loop of the discovery phase: build the known-name set
from every tree loaded so far. -/
def buildKnown (env : DiscEnv) (trees : List ModelTree) : List String :=
  trees.foldl (fun acc t => addKnownNames acc (env.treeDecls t)) []

/-- The second loop: build the initial missing-name set from every
tree, against the fully built known-name set. -/
def buildMissing (env : DiscEnv) (known : List String) (trees : List ModelTree) : List String :=
  trees.foldl (fun acc t => addMissingRefs known acc (env.treeRefs t)) []

/-- The discovery phase of `loadAndParseSources`, seeded with the tree
list, known names and missing names of the per-file phase, run with the
finalized inherited-macro list and the source manager's read cache
(`initCache`, as left by the earlier phases). The fuel
`unloadedCount env.fs initCache + 1` is proven sufficient, so the
`getD` fallback is never taken. -/
def discoveryPhase (env : DiscEnv) (inherited : List Nat) (initCache : List String)
    (trees : List ModelTree) : List ModelTree :=
  ((discoverLoopFuel { env with inherited := inherited }
      (unloadedCount env.fs initCache + 1)
      ⟨initCache, buildKnown env trees, trees⟩
      (buildMissing env (buildKnown env trees) trees)).getD
    ⟨initCache, buildKnown env trees, trees⟩).trees

/-- `SourceLoader::loadAndParseSources`: the per-file phase (threaded
or sequential), then — only when at least one search directory is
registered — the fixpoint discovery phase. -/
def loadAndParseSources (minFilesForThreading : Nat)
    (read : String → Option String → Except Nat Nat)
    (definedMacros : List Nat → List Nat) (opts : SourceOptionsM)
    (errs0 : List (String × Nat)) (entries : List FileEntry)
    (env : DiscEnv) (initCache : List String) : List ModelTree :=
  if env.dirs.isEmpty then
    (phase1 minFilesForThreading read definedMacros opts errs0 entries).1.trees
  else
    discoveryPhase env
      (phase1 minFilesForThreading read definedMacros opts errs0 entries).2 initCache
      (phase1 minFilesForThreading read definedMacros opts errs0 entries).1.trees

/-- A sequence of registrations of one path (flag, library, rank). -/
def registerAll (s : LoaderState) (p : String)
    (regs : List (Bool × Option String × Nat)) : LoaderState :=
  regs.foldl (fun st r => registerPath st p r.1 r.2.1 r.2.2) s

theorem lookupIndex_append_self (ix : List (String × Nat)) (p : String) (n : Nat)
    (h : lookupIndex ix p = none) : lookupIndex (ix ++ [(p, n)]) p = some n := by
  induction ix with
  | nil => simp [lookupIndex]
  | cons q rest ih =>
    cases hq : (q.1 == p) with
    | true => simp [lookupIndex, List.find?, hq] at h
    | false =>
      simp only [lookupIndex, List.cons_append, List.find?, hq] at h ⊢
      exact ih h

theorem modifyAt_length {α : Type} (l : List α) (i : Nat) (f : α → α) :
    (modifyAt l i f).length = l.length := by
  induction l generalizing i with
  | nil => rfl
  | cons x xs ih =>
    cases i with
    | zero => simp [modifyAt]
    | succ n => simp [modifyAt, ih]

theorem modifyAt_getElem? {α : Type} (l : List α) (i : Nat) (f : α → α) :
    (modifyAt l i f)[i]? = (l[i]?).map f := by
  induction l generalizing i with
  | nil => simp [modifyAt]
  | cons x xs ih =>
    cases i with
    | zero => simp [modifyAt]
    | succ n => simpa [modifyAt] using ih n

theorem modifyAt_append_length {α : Type} (l : List α) (e : α) (f : α → α) :
    modifyAt (l ++ [e]) l.length f = l ++ [f e] := by
  induction l with
  | nil => rfl
  | cons x xs ih => simp [modifyAt, ih]

theorem registerPath_absent (s : LoaderState) (path : String) (f : Bool)
    (l : Option String) (r : Nat) (h : lookupIndex s.fileIndex path = none) :
    registerPath s path f l r =
      { s with
        fileIndex := s.fileIndex ++ [(path, s.fileEntries.length)]
        fileEntries := s.fileEntries ++ [⟨path, f, l, r, none⟩] } := by
  simp [registerPath, h]

theorem registerPath_present (s : LoaderState) (path : String) (f : Bool)
    (l : Option String) (r : Nat) (i : Nat) (h : lookupIndex s.fileIndex path = some i) :
    registerPath s path f l r =
      { s with fileEntries := modifyAt s.fileEntries i (updateEntry f l r) } := by
  simp [registerPath, h]

theorem updateEntry_adopt (f : Bool) (lib : String) (r : Nat) (e : FileEntry)
    (h : e.library.isNone = true ∨ r < e.libraryRank) :
    updateEntry f (some lib) r e =
      ⟨e.path, e.isLibraryFile && f, some lib, r, e.secondLib⟩ := by
  have hc : (e.library.isNone || decide (r < e.libraryRank)) = true := by
    rcases h with h | h
    · simp [h]
    · simp [h]
  simp [updateEntry, hc]

theorem updateEntry_tie (f : Bool) (lib : String) (r : Nat) (e : FileEntry)
    (h1 : e.library.isNone = false) (h2 : r = e.libraryRank) :
    updateEntry f (some lib) r e =
      ⟨e.path, e.isLibraryFile && f, e.library, e.libraryRank, some lib⟩ := by
  subst h2
  simp [updateEntry, h1]

theorem updateEntry_ignore (f : Bool) (lib : String) (r : Nat) (e : FileEntry)
    (h1 : e.library.isNone = false) (h2 : e.libraryRank < r) :
    updateEntry f (some lib) r e =
      ⟨e.path, e.isLibraryFile && f, e.library, e.libraryRank, e.secondLib⟩ := by
  have hlt : ¬ (r < e.libraryRank) := by omega
  have hne : (r == e.libraryRank) = false := beq_eq_false_iff_ne.mpr (by omega)
  simp [updateEntry, h1, hlt, hne]

theorem updateEntry_none (f : Bool) (r : Nat) (e : FileEntry) :
    updateEntry f none r e =
      ⟨e.path, e.isLibraryFile && f, e.library, e.libraryRank, e.secondLib⟩ := rfl

theorem updateEntry_path (f : Bool) (l : Option String) (r : Nat) (e : FileEntry) :
    (updateEntry f l r e).path = e.path := by
  cases l with
  | none => rfl
  | some lib =>
    simp only [updateEntry]
    split
    · rfl
    · split <;> rfl

theorem updateEntry_isLibraryFile (f : Bool) (l : Option String) (r : Nat) (e : FileEntry) :
    (updateEntry f l r e).isLibraryFile = (e.isLibraryFile && f) := by
  cases l with
  | none => rfl
  | some lib =>
    simp only [updateEntry]
    split
    · rfl
    · split <;> rfl

/-- C1 (counterexample): registering "p.sv" with library A at rank 1,
then library B at rank 1 (tie recorded: secondLib = B), then library C
at the strictly lower rank 0 adopts C/0 — but `secondLib` is still B,
not cleared to `none` as the claim asserts. -/
theorem C1_counterexample :
    (registerPath (registerPath (registerPath emptyLoader "p.sv" true (some "A") 1)
        "p.sv" true (some "B") 1) "p.sv" true (some "C") 0).fileEntries
      = [⟨"p.sv", true, some "C", 0, some "B"⟩] ∧
    ¬ ((registerPath (registerPath (registerPath emptyLoader "p.sv" true (some "A") 1)
        "p.sv" true (some "B") 1) "p.sv" true (some "C") 0).fileEntries.map
          (fun e => e.secondLib) = [none]) := by
  constructor
  · rfl
  · decide

/-- C1 (amended): for every path already present in the registry with a
recorded rank tie, a later registration with a non-null library at a
strictly lower rank adopts the new library and rank but leaves the
previous tie record in place: `secondLib` keeps its recorded value and
is not cleared. -/
theorem C1_amended (s : LoaderState) (path : String) (flag : Bool) (lib tieLib : String)
    (rank i : Nat) (entry : FileEntry)
    (hix : lookupIndex s.fileIndex path = some i)
    (he : s.fileEntries[i]? = some entry)
    (hsec : entry.secondLib = some tieLib)
    (hr : rank < entry.libraryRank) :
    (registerPath s path flag (some lib) rank).fileEntries[i]?
      = some ⟨entry.path, entry.isLibraryFile && flag, some lib, rank, some tieLib⟩ := by
  rw [registerPath_present s path flag (some lib) rank i hix]
  simp only [modifyAt_getElem?, he, Option.map_some']
  rw [updateEntry_adopt flag lib rank entry (Or.inr hr), hsec]

/-- C1 witness: the amended theorem applied to the concrete tie state
built by registering library A at rank 1, then B at rank 1, then C at
rank 0. -/
theorem C1_witness :
    (registerPath (registerPath (registerPath emptyLoader "p.sv" true (some "A") 1)
        "p.sv" true (some "B") 1) "p.sv" true (some "C") 0).fileEntries[0]?
      = some ⟨"p.sv", true, some "C", 0, some "B"⟩ := by
  have h := C1_amended
    (registerPath (registerPath emptyLoader "p.sv" true (some "A") 1) "p.sv" true (some "B") 1)
    "p.sv" true "C" "B" 0 0 ⟨"p.sv", true, some "A", 1, some "B"⟩
    (by decide) (by decide) (by decide) (by decide)
  simpa using h

/-- C2 (counterexample): registering "a.sv" twice with identical
arguments (library A, rank 1) does not reproduce the single-registration
entry: the equal-rank re-registration records `secondLib = A` even
though the incoming library does not differ from the stored one. -/
theorem C2_counterexample :
    (registerPath (registerPath emptyLoader "a.sv" true (some "A") 1)
        "a.sv" true (some "A") 1).fileEntries
      = [⟨"a.sv", true, some "A", 1, some "A"⟩] ∧
    (registerPath emptyLoader "a.sv" true (some "A") 1).fileEntries
      = [⟨"a.sv", true, some "A", 1, none⟩] ∧
    ¬ ((registerPath (registerPath emptyLoader "a.sv" true (some "A") 1)
          "a.sv" true (some "A") 1).fileEntries
        = (registerPath emptyLoader "a.sv" true (some "A") 1).fileEntries) := by
  refine ⟨rfl, rfl, ?_⟩
  decide

/-- C2 (amended): registering the same (previously unseen) path twice
with identical arguments yields exactly one FileEntry that agrees with
the single-registration entry on path, isLibraryFile, library and
libraryRank, but whose `secondLib` is set to the (identical) incoming
library: an equal-rank re-registration records `secondLib`
unconditionally, not only when the incoming library differs. -/
theorem C2_amended (s : LoaderState) (path : String) (flag : Bool) (lib : String) (rank : Nat)
    (h : lookupIndex s.fileIndex path = none) :
    (registerPath (registerPath s path flag (some lib) rank) path flag (some lib) rank).fileEntries
      = s.fileEntries ++ [⟨path, flag, some lib, rank, some lib⟩] ∧
    (registerPath (registerPath s path flag (some lib) rank) path flag (some lib) rank).fileIndex
      = s.fileIndex ++ [(path, s.fileEntries.length)] ∧
    (registerPath s path flag (some lib) rank).fileEntries
      = s.fileEntries ++ [⟨path, flag, some lib, rank, none⟩] := by
  rw [registerPath_absent s path flag (some lib) rank h]
  have hix : lookupIndex (s.fileIndex ++ [(path, s.fileEntries.length)]) path
      = some s.fileEntries.length := lookupIndex_append_self _ _ _ h
  rw [registerPath_present _ path flag (some lib) rank _ hix]
  refine ⟨?_, rfl, rfl⟩
  simp only [modifyAt_append_length]
  rw [updateEntry_tie flag lib rank ⟨path, flag, some lib, rank, none⟩ rfl rfl]
  simp

/-- C2 witness: the amended theorem applied to the empty registry with
path "a.sv", library A, rank 1. -/
theorem C2_witness :
    (registerPath (registerPath emptyLoader "a.sv" true (some "A") 1)
        "a.sv" true (some "A") 1).fileEntries
      = [⟨"a.sv", true, some "A", 1, some "A"⟩] ∧
    (registerPath (registerPath emptyLoader "a.sv" true (some "A") 1)
        "a.sv" true (some "A") 1).fileIndex = [("a.sv", 0)] := by
  have h := C2_amended emptyLoader "a.sv" true "A" 1 (by decide)
  exact ⟨by simpa using h.1, by simpa using h.2.1⟩

/-- C5: for a single path registered twice with non-null libraries:
ranks 2 (A) then 1 (B) give library B, rank 1, no tie; ranks 1 (A) then
1 (B) with A ≠ B give library A with secondLib B; and a registration at
a rank strictly greater than the stored rank (with a library already
stored) leaves library, rank and tie record unchanged. -/
theorem C5_library_precedence :
    (∀ (s : LoaderState) (p : String) (f1 f2 : Bool) (A B : String),
      lookupIndex s.fileIndex p = none →
      (registerPath (registerPath s p f1 (some A) 2) p f2 (some B) 1).fileEntries
        = s.fileEntries ++ [⟨p, f1 && f2, some B, 1, none⟩]) ∧
    (∀ (s : LoaderState) (p : String) (f1 f2 : Bool) (A B : String),
      lookupIndex s.fileIndex p = none → A ≠ B →
      (registerPath (registerPath s p f1 (some A) 1) p f2 (some B) 1).fileEntries
        = s.fileEntries ++ [⟨p, f1 && f2, some A, 1, some B⟩]) ∧
    (∀ (s : LoaderState) (p : String) (f : Bool) (lib l0 : String) (rank i : Nat)
        (entry : FileEntry),
      lookupIndex s.fileIndex p = some i →
      s.fileEntries[i]? = some entry →
      entry.library = some l0 →
      entry.libraryRank < rank →
      (registerPath s p f (some lib) rank).fileEntries[i]?
        = some ⟨entry.path, entry.isLibraryFile && f, entry.library, entry.libraryRank,
            entry.secondLib⟩) := by
  refine ⟨?_, ?_, ?_⟩
  · intro s p f1 f2 A B h
    rw [registerPath_absent s p f1 (some A) 2 h]
    have hix : lookupIndex (s.fileIndex ++ [(p, s.fileEntries.length)]) p
        = some s.fileEntries.length := lookupIndex_append_self _ _ _ h
    rw [registerPath_present _ p f2 (some B) 1 _ hix]
    simp only [modifyAt_append_length]
    rw [updateEntry_adopt f2 B 1 ⟨p, f1, some A, 2, none⟩ (Or.inr Nat.one_lt_two)]
  · intro s p f1 f2 A B h _
    rw [registerPath_absent s p f1 (some A) 1 h]
    have hix : lookupIndex (s.fileIndex ++ [(p, s.fileEntries.length)]) p
        = some s.fileEntries.length := lookupIndex_append_self _ _ _ h
    rw [registerPath_present _ p f2 (some B) 1 _ hix]
    simp only [modifyAt_append_length]
    rw [updateEntry_tie f2 B 1 ⟨p, f1, some A, 1, none⟩ rfl rfl]
  · intro s p f lib l0 rank i entry hix he hlib hr
    rw [registerPath_present s p f (some lib) rank i hix]
    simp only [modifyAt_getElem?, he, Option.map_some']
    rw [updateEntry_ignore f lib rank entry (by simp [hlib]) hr]

/-- C5 witness: the three precedence scenarios instantiated on concrete
registrations of path "x.sv" with libraries A, B, C. -/
theorem C5_witness :
    (registerPath (registerPath emptyLoader "x.sv" true (some "A") 2)
        "x.sv" true (some "B") 1).fileEntries
      = [⟨"x.sv", true, some "B", 1, none⟩] ∧
    (registerPath (registerPath emptyLoader "x.sv" true (some "A") 1)
        "x.sv" true (some "B") 1).fileEntries
      = [⟨"x.sv", true, some "A", 1, some "B"⟩] ∧
    (registerPath (registerPath emptyLoader "x.sv" true (some "A") 1)
        "x.sv" true (some "C") 5).fileEntries[0]?
      = some ⟨"x.sv", true, some "A", 1, none⟩ := by
  refine ⟨?_, ?_, ?_⟩
  · have h := C5_library_precedence.1 emptyLoader "x.sv" true true "A" "B" (by decide)
    simpa using h
  · have h := C5_library_precedence.2.1 emptyLoader "x.sv" true true "A" "B" (by decide)
      (by decide)
    simpa using h
  · have h := C5_library_precedence.2.2 (registerPath emptyLoader "x.sv" true (some "A") 1)
      "x.sv" true "C" "A" 5 0 ⟨"x.sv", true, some "A", 1, none⟩
      (by decide) (by decide) (by decide) (by decide)
    simpa using h

theorem registerAll_present (regs : List (Bool × Option String × Nat)) :
    ∀ (s : LoaderState) (p : String) (n : Nat) (entry : FileEntry),
      lookupIndex s.fileIndex p = some n → s.fileEntries[n]? = some entry →
      ∃ e' : FileEntry,
        (registerAll s p regs).fileEntries[n]? = some e' ∧
        e'.isLibraryFile = (entry.isLibraryFile && regs.all (fun r => r.1)) ∧
        e'.path = entry.path ∧
        (registerAll s p regs).fileIndex = s.fileIndex ∧
        (registerAll s p regs).fileEntries.length = s.fileEntries.length := by
  induction regs with
  | nil =>
    intro s p n entry hix he
    exact ⟨entry, he, by simp, rfl, rfl, rfl⟩
  | cons r rest ih =>
    intro s p n entry hix he
    have hreg := registerPath_present s p r.1 r.2.1 r.2.2 n hix
    have hstep : (registerPath s p r.1 r.2.1 r.2.2).fileEntries[n]?
        = some (updateEntry r.1 r.2.1 r.2.2 entry) := by
      rw [hreg]
      simp only [modifyAt_getElem?, he, Option.map_some']
    have hix' : lookupIndex (registerPath s p r.1 r.2.1 r.2.2).fileIndex p = some n := by
      rw [hreg]
      exact hix
    obtain ⟨e', h1, h2, h3, h4, h5⟩ := ih (registerPath s p r.1 r.2.1 r.2.2) p n
      (updateEntry r.1 r.2.1 r.2.2 entry) hix' hstep
    refine ⟨e', ?_, ?_, ?_, ?_, ?_⟩
    · simpa [registerAll] using h1
    · rw [h2, updateEntry_isLibraryFile]
      simp [Bool.and_assoc]
    · rw [h3, updateEntry_path]
    · rw [show (registerAll s p (r :: rest)).fileIndex
          = (registerAll (registerPath s p r.1 r.2.1 r.2.2) p rest).fileIndex from rfl, h4, hreg]
    · rw [show (registerAll s p (r :: rest)).fileEntries
          = (registerAll (registerPath s p r.1 r.2.1 r.2.2) p rest).fileEntries from rfl, h5,
        hreg]
      simp [modifyAt_length]

/-- C6: for a previously unseen path put through any non-empty sequence
of registrations, exactly one FileEntry results, and its isLibraryFile
flag is the logical AND of the flag across all registrations; in
particular once any registration is direct (flag false) the final entry
is non-library, regardless of how many library registrations occur and
in which order. -/
theorem C6_direct_wins (s : LoaderState) (p : String)
    (regs : List (Bool × Option String × Nat))
    (hne : regs ≠ []) (h : lookupIndex s.fileIndex p = none) :
    (registerAll s p regs).fileEntries.length = s.fileEntries.length + 1 ∧
    ((registerAll s p regs).fileEntries[s.fileEntries.length]?.map (fun e => e.isLibraryFile))
      = some (regs.all (fun r => r.1)) ∧
    ((∃ r ∈ regs, r.1 = false) →
      ((registerAll s p regs).fileEntries[s.fileEntries.length]?.map (fun e => e.isLibraryFile))
        = some false) := by
  cases regs with
  | nil => exact absurd rfl hne
  | cons r rest =>
    have hreg := registerPath_absent s p r.1 r.2.1 r.2.2 h
    have hix : lookupIndex (registerPath s p r.1 r.2.1 r.2.2).fileIndex p
        = some s.fileEntries.length := by
      rw [hreg]
      exact lookupIndex_append_self _ _ _ h
    have hent : (registerPath s p r.1 r.2.1 r.2.2).fileEntries[s.fileEntries.length]?
        = some ⟨p, r.1, r.2.1, r.2.2, none⟩ := by
      rw [hreg]
      simp
    obtain ⟨e', h1, h2, h3, h4, h5⟩ := registerAll_present rest
      (registerPath s p r.1 r.2.1 r.2.2) p s.fileEntries.length
      ⟨p, r.1, r.2.1, r.2.2, none⟩ hix hent
    have hfold : registerAll s p (r :: rest)
        = registerAll (registerPath s p r.1 r.2.1 r.2.2) p rest := rfl
    have hmap : ((registerAll s p (r :: rest)).fileEntries[s.fileEntries.length]?.map
        (fun e => e.isLibraryFile)) = some (r.1 && rest.all (fun q => q.1)) := by
      rw [hfold, h1]
      simp only [Option.map_some']
      rw [h2]
    refine ⟨?_, ?_, ?_⟩
    · rw [hfold, h5, hreg]
      simp
    · rw [hmap]
      simp
    · intro hex
      rw [hmap]
      have : (r :: rest).all (fun q => q.1) = false := by
        rcases hex with ⟨q, hq, hq0⟩
        cases hall : (r :: rest).all (fun q => q.1) with
        | false => rfl
        | true =>
          have := (List.all_eq_true.mp hall) q hq
          rw [hq0] at this
          exact absurd this (by decide)
      simp only [List.all_cons] at this
      rw [this]

/-- C6 witness: registering "x.sv" first as a library file (library A,
rank 1) and then as a direct file leaves a single non-library entry. -/
theorem C6_witness :
    (registerAll emptyLoader "x.sv" [(true, some "A", 1), (false, none, 2)]).fileEntries.length
      = 1 ∧
    ((registerAll emptyLoader "x.sv"
        [(true, some "A", 1), (false, none, 2)]).fileEntries[0]?.map
          (fun e => e.isLibraryFile)) = some false := by
  have h := C6_direct_wins emptyLoader "x.sv" [(true, some "A", 1), (false, none, 2)]
    (by decide) (by decide)
  exact ⟨by simpa using h.1, by simpa using h.2.2 ⟨(false, none, 2), by decide, rfl⟩⟩

/-- C3 (counterexample): a direct (non-library) entry with single-unit
mode off and librariesInheritMacros on reaches the macro-inheriting
deferral branch (result `.buffer _ true`, the branch carrying
`SLANG_ASSERT(entry.isLibraryFile)`) although the entry is not a
library file — the asserted precondition fails there. -/
theorem C3_counterexample :
    loadAndParse (fun _ _ => .ok 0) ⟨false, true, false, none⟩ ⟨"f.sv", false, none, 0, none⟩
      = .buffer 0 true ∧
    (⟨"f.sv", false, none, 0, none⟩ : FileEntry).isLibraryFile = false := by
  constructor
  · rfl
  · rfl

/-- C3 (amended): whenever `loadAndParse` reaches the macro-inheriting
deferral branch (returns a deferred library buffer) while single-unit
mode is active, the entry is a library file, so the asserted
precondition holds; without single-unit mode a non-library entry can
reach the branch. -/
theorem C3_amended (read : String → Option String → Except Nat Nat)
    (opts : SourceOptionsM) (entry : FileEntry) (b : Nat)
    (hres : loadAndParse read opts entry = .buffer b true)
    (hsu : opts.singleUnit = true) :
    entry.isLibraryFile = true := by
  unfold loadAndParse at hres
  cases hread : read entry.path entry.library with
  | error code => rw [hread] at hres; exact absurd hres (by simp)
  | ok buffer =>
    rw [hread] at hres
    cases hlib : entry.isLibraryFile with
    | true => rfl
    | false =>
      rw [hlib, hsu] at hres
      simp at hres

/-- C3 witness: the amended theorem applied to a library entry under
single-unit plus macro-inheriting options. -/
theorem C3_witness :
    (⟨"lib.sv", true, some "L", 1, none⟩ : FileEntry).isLibraryFile = true :=
  C3_amended (fun _ _ => .ok 3) ⟨true, true, false, none⟩
    ⟨"lib.sv", true, some "L", 1, none⟩ 3 rfl rfl

theorem getOrAddLibrary_preserves (s : LoaderState) (name : String) :
    (getOrAddLibrary s name).1.fileEntries = s.fileEntries ∧
    (getOrAddLibrary s name).1.fileIndex = s.fileIndex ∧
    (getOrAddLibrary s name).1.searchDirectories = s.searchDirectories ∧
    (getOrAddLibrary s name).1.errors = s.errors := by
  unfold getOrAddLibrary
  split
  · exact ⟨rfl, rfl, rfl, rfl⟩
  · split
    · exact ⟨rfl, rfl, rfl, rfl⟩
    · exact ⟨rfl, rfl, rfl, rfl⟩

/-- C10: every registration entry point whose pattern expansion fails
appends exactly one error record holding the pattern and returns early,
leaving the file-entry list, the path-to-index map and the search
directory list exactly as before the call (for `addLibraryFiles` the
library registry may still gain the named library, which the claim does
not cover; the three named registries are untouched). -/
theorem C10_glob_error_atomicity (env : MapEnv) (s : LoaderState)
    (pattern basePath libName : String) (flag : Bool) (lib : Option String)
    (expand : Bool) (ec fuel : Nat) :
    (env.globFiles basePath pattern expand = .error ec →
      addFilesInternal env s pattern basePath flag lib expand
        = { s with errors := s.errors ++ [(pattern, ec)] }) ∧
    (env.globFiles "" pattern false = .error ec →
      addFiles env s pattern = { s with errors := s.errors ++ [(pattern, ec)] }) ∧
    (env.globFiles "" pattern false = .error ec →
      (addLibraryFiles env s libName pattern).fileEntries = s.fileEntries ∧
      (addLibraryFiles env s libName pattern).fileIndex = s.fileIndex ∧
      (addLibraryFiles env s libName pattern).searchDirectories = s.searchDirectories ∧
      (addLibraryFiles env s libName pattern).errors = s.errors ++ [(pattern, ec)]) ∧
    (env.globDirs pattern = .error ec →
      addSearchDirectories env s pattern = { s with errors := s.errors ++ [(pattern, ec)] }) ∧
    (env.globFiles basePath pattern expand = .error ec →
      addLibraryMaps env (fuel + 1) s pattern basePath expand
        = { s with errors := s.errors ++ [(pattern, ec)] }) := by
  refine ⟨?_, ?_, ?_, ?_, ?_⟩
  · intro h
    simp [addFilesInternal, h]
  · intro h
    simp [addFiles, addFilesInternal, h]
  · intro h
    obtain ⟨h1, h2, h3, h4⟩ := getOrAddLibrary_preserves s libName
    unfold addLibraryFiles
    simp only [addFilesInternal, h]
    exact ⟨h1, h2, h3, by rw [h4]⟩
  · intro h
    simp [addSearchDirectories, h]
  · intro h
    simp [addLibraryMaps, h]

/-- C10 witness: the atomicity statement applied to an environment
whose glob calls fail with error code 3, starting from the empty
loader. -/
theorem C10_witness :
    addFiles ⟨fun _ _ _ => .error 3, fun _ => .error 3, fun _ => .error 0,
        fun _ => [], fun p => p⟩ emptyLoader "bad*"
      = { emptyLoader with errors := [("bad*", 3)] } ∧
    (addLibraryFiles ⟨fun _ _ _ => .error 3, fun _ => .error 3, fun _ => .error 0,
        fun _ => [], fun p => p⟩ emptyLoader "L" "bad*").errors = [("bad*", 3)] ∧
    addSearchDirectories ⟨fun _ _ _ => .error 3, fun _ => .error 3, fun _ => .error 0,
        fun _ => [], fun p => p⟩ emptyLoader "bad*"
      = { emptyLoader with errors := [("bad*", 3)] } ∧
    addLibraryMaps ⟨fun _ _ _ => .error 3, fun _ => .error 3, fun _ => .error 0,
        fun _ => [], fun p => p⟩ 1 emptyLoader "bad*" ""  false
      = { emptyLoader with errors := [("bad*", 3)] } := by
  have h := C10_glob_error_atomicity
    ⟨fun _ _ _ => .error 3, fun _ => .error 3, fun _ => .error 0, fun _ => [], fun p => p⟩
    emptyLoader "bad*" "" "L" false none false 3 0
  exact ⟨by simpa using h.2.1 rfl, by simpa using (h.2.2.1 rfl).2.2.2,
    by simpa using h.2.2.2.1 rfl, by simpa using h.2.2.2.2 rfl⟩

theorem foldl_handle_entries (read : String → Option String → Except Nat Nat)
    (opts : SourceOptionsM) (entries : List FileEntry) :
    ∀ st : Phase1State,
      entries.foldl (fun st e => handleLoadResult st (loadAndParse read opts e)) st =
        ⟨st.trees ++ eagerTrees read opts entries,
         st.singleUnitBuffers ++ suBufsOf read opts entries,
         st.deferredLibBuffers ++ dlBufsOf read opts entries,
         st.errors ++ errsOf read opts entries⟩ := by
  induction entries with
  | nil =>
    intro st
    simp [eagerTrees, suBufsOf, dlBufsOf, errsOf]
  | cons e rest ih =>
    intro st
    rw [List.foldl_cons, ih]
    cases hr : loadAndParse read opts e with
    | tree t =>
      simp [eagerTrees, suBufsOf, dlBufsOf, errsOf, handleLoadResult, hr, resultTree,
        resultSingleUnitBuf, resultDeferredLibBuf, resultErr, List.filterMap_cons]
    | buffer b dl =>
      cases dl <;>
        simp [eagerTrees, suBufsOf, dlBufsOf, errsOf, handleLoadResult, hr, resultTree,
          resultSingleUnitBuf, resultDeferredLibBuf, resultErr, List.filterMap_cons]
    | err p c =>
      simp [eagerTrees, suBufsOf, dlBufsOf, errsOf, handleLoadResult, hr, resultTree,
        resultSingleUnitBuf, resultDeferredLibBuf, resultErr, List.filterMap_cons]

theorem foldl_appendTrees (inh : List Nat) (bs : List Nat) :
    ∀ st : Phase1State,
      bs.foldl (fun st b => { st with trees := st.trees ++ [ModelTree.fromBuffer b inh true] }) st
        = { st with trees := st.trees ++ bs.map (fun b => ModelTree.fromBuffer b inh true) } := by
  induction bs with
  | nil => intro st; simp
  | cons b rest ih =>
    intro st
    rw [List.foldl_cons, ih]
    simp

theorem parseSingleUnit_mk (dm : List Nat → List Nat) (onlyLint : Bool)
    (trees : List ModelTree) (su dl : List Nat) (errs : List (String × Nat)) :
    parseSingleUnit dm onlyLint ⟨trees, su, dl, errs⟩ =
      if su.isEmpty then (⟨trees, su, dl, errs⟩, [])
      else (⟨trees ++ [ModelTree.fromBuffers su onlyLint], su, dl, errs⟩, dm su) := by
  unfold parseSingleUnit
  by_cases h : su.isEmpty <;> simp [h]

theorem thrDeferred_eq_seqDeferred (p : Phase1State × List Nat) :
    thrDeferred p = seqDeferred p := by
  unfold thrDeferred seqDeferred parMap
  by_cases h : p.1.deferredLibBuffers.isEmpty
  · simp [h]
  · rw [if_neg h, if_neg h, foldl_appendTrees]

theorem seqDeferred_mk (inh : List Nat) (trees : List ModelTree) (su dl : List Nat)
    (errs : List (String × Nat)) :
    seqDeferred (⟨trees, su, dl, errs⟩, inh)
      = (⟨trees ++ dl.map (fun b => ModelTree.fromBuffer b inh true), su, dl, errs⟩, inh) := by
  cases dl with
  | nil => simp [seqDeferred]
  | cons b rest =>
    unfold seqDeferred
    rw [if_neg (by simp), foldl_appendTrees]

theorem phase1Seq_eq (read : String → Option String → Except Nat Nat)
    (dm : List Nat → List Nat) (opts : SourceOptionsM)
    (errs0 : List (String × Nat)) (entries : List FileEntry) :
    phase1Seq read dm opts errs0 entries =
      (⟨eagerTrees read opts entries
          ++ (if (suBufsOf read opts entries).isEmpty then []
              else [ModelTree.fromBuffers (suBufsOf read opts entries) opts.onlyLint])
          ++ (dlBufsOf read opts entries).map
              (fun b => ModelTree.fromBuffer b (inheritedOf read dm opts entries) true),
        suBufsOf read opts entries,
        dlBufsOf read opts entries,
        errs0 ++ errsOf read opts entries⟩,
       inheritedOf read dm opts entries) := by
  unfold phase1Seq
  rw [foldl_handle_entries read opts entries ⟨[], [], [], errs0⟩]
  simp only [List.nil_append]
  rw [parseSingleUnit_mk]
  by_cases hsu : (suBufsOf read opts entries).isEmpty
  · rw [if_pos hsu, seqDeferred_mk]
    unfold inheritedOf
    rw [if_pos hsu, if_pos hsu]
    simp
  · rw [if_neg hsu, seqDeferred_mk]
    unfold inheritedOf
    rw [if_neg hsu, if_neg hsu]

/-- C4: for every entry set and option combination, the thread-pool
branch of `loadAndParseSources` (index-addressed slots merged after the
barrier) produces exactly the same state and tree list as the
sequential branch — so the branch choice never changes the output —
and the resulting tree list is, deterministically: first the eagerly
produced trees in file-entry order, then the single synthesized
single-unit tree (when any single-unit buffers were collected), then
one deferred macro-inheriting library tree per deferred buffer in
original file order. -/
theorem C4_deterministic_order (read : String → Option String → Except Nat Nat)
    (dm : List Nat → List Nat) (opts : SourceOptionsM)
    (errs0 : List (String × Nat)) (entries : List FileEntry) :
    phase1Threaded read dm opts errs0 entries = phase1Seq read dm opts errs0 entries ∧
    (∀ minFiles : Nat,
      phase1 minFiles read dm opts errs0 entries = phase1Seq read dm opts errs0 entries) ∧
    (phase1Seq read dm opts errs0 entries).1.trees
      = eagerTrees read opts entries
        ++ (if (suBufsOf read opts entries).isEmpty then []
            else [ModelTree.fromBuffers (suBufsOf read opts entries) opts.onlyLint])
        ++ (dlBufsOf read opts entries).map
            (fun b => ModelTree.fromBuffer b (inheritedOf read dm opts entries) true) := by
  have hthr : phase1Threaded read dm opts errs0 entries
      = phase1Seq read dm opts errs0 entries := by
    unfold phase1Threaded phase1Seq
    rw [thrDeferred_eq_seqDeferred]
    unfold parMap
    rw [List.foldl_map]
  refine ⟨hthr, ?_, ?_⟩
  · intro minFiles
    unfold phase1
    split
    · exact hthr
    · rfl
  · rw [phase1Seq_eq]

/-- C9: a read failure for one entry never aborts the others: when the
entry list splits as l1 ++ bad :: l2 with every entry of l1 and l2
loading without error and bad failing to read with code c, the
sequential pipeline appends exactly one error record, carrying bad's
path, and every other entry still contributes exactly one tree or
deferred buffer (their counts sum to the number of other entries). -/
theorem C9_error_isolation (read : String → Option String → Except Nat Nat)
    (dm : List Nat → List Nat) (opts : SourceOptionsM) (errs0 : List (String × Nat))
    (l1 l2 : List FileEntry) (bad : FileEntry) (c : Nat)
    (h1 : ∀ e ∈ l1, resultErr (loadAndParse read opts e) = none)
    (h2 : ∀ e ∈ l2, resultErr (loadAndParse read opts e) = none)
    (hbad : read bad.path bad.library = .error c) :
    (phase1Seq read dm opts errs0 (l1 ++ bad :: l2)).1.errors = errs0 ++ [(bad.path, c)] ∧
    (eagerTrees read opts (l1 ++ bad :: l2)).length
      + (suBufsOf read opts (l1 ++ bad :: l2)).length
      + (dlBufsOf read opts (l1 ++ bad :: l2)).length
      = l1.length + l2.length := by
  have hbadr : loadAndParse read opts bad = .err bad.path c := by
    simp [loadAndParse, hbad]
  have herrs : errsOf read opts (l1 ++ bad :: l2) = [(bad.path, c)] := by
    unfold errsOf
    rw [List.filterMap_append, List.filterMap_cons]
    rw [List.filterMap_eq_nil_iff.mpr h1, List.filterMap_eq_nil_iff.mpr h2]
    simp [hbadr, resultErr]
  constructor
  · rw [phase1Seq_eq]
    simp [herrs]
  · have hcount : (eagerTrees read opts (l1 ++ bad :: l2)).length
        + (suBufsOf read opts (l1 ++ bad :: l2)).length
        + (dlBufsOf read opts (l1 ++ bad :: l2)).length
        + (errsOf read opts (l1 ++ bad :: l2)).length
        = (l1 ++ bad :: l2).length := by
      generalize l1 ++ bad :: l2 = entries
      induction entries with
      | nil => rfl
      | cons e rest ih =>
        cases hr : loadAndParse read opts e with
        | tree t =>
          simp only [eagerTrees, suBufsOf, dlBufsOf, errsOf, List.filterMap_cons, hr,
            resultTree, resultSingleUnitBuf, resultDeferredLibBuf, resultErr,
            List.length_cons] at ih ⊢
          omega
        | buffer b dl =>
          cases dl <;>
            (simp only [eagerTrees, suBufsOf, dlBufsOf, errsOf, List.filterMap_cons, hr,
              resultTree, resultSingleUnitBuf, resultDeferredLibBuf, resultErr,
              List.length_cons] at ih ⊢
             omega)
        | err p ec =>
          simp only [eagerTrees, suBufsOf, dlBufsOf, errsOf, List.filterMap_cons, hr,
            resultTree, resultSingleUnitBuf, resultDeferredLibBuf, resultErr,
            List.length_cons] at ih ⊢
          omega
    rw [herrs] at hcount
    simp only [List.length_append, List.length_cons, List.length_nil] at hcount
    omega

/-- C9 witness: three entries of which exactly the middle one is
unreadable yield two non-error outcomes and the single error record
("bad", 7). -/
theorem C9_witness :
    (phase1Seq (fun p _ => if p == "bad" then .error 7 else .ok 0) (fun _ => [])
        ⟨false, false, false, none⟩ []
        [⟨"g1", false, none, 0, none⟩, ⟨"bad", false, none, 0, none⟩,
          ⟨"g2", false, none, 0, none⟩]).1.errors = [("bad", 7)] := by
  have h := C9_error_isolation (fun p _ => if p == "bad" then .error 7 else .ok 0)
    (fun _ => []) ⟨false, false, false, none⟩ []
    [⟨"g1", false, none, 0, none⟩] [⟨"g2", false, none, 0, none⟩]
    ⟨"bad", false, none, 0, none⟩ 7
    (by intro e he; simp at he; subst he; rfl)
    (by intro e he; simp at he; subst he; rfl)
    rfl
  simpa using h.1

theorem unloadedCount_cons (q : String × Nat) (fs : List (String × Nat))
    (cache : List String) :
    unloadedCount (q :: fs) cache
      = unloadedCount fs cache + (if q.1 ∈ cache then 0 else 1) := by
  unfold unloadedCount
  simp only [List.filter_cons]
  by_cases h : q.1 ∈ cache
  · simp [h]
  · simp [h]

theorem unloadedCount_mono (fs : List (String × Nat)) (cache cache2 : List String)
    (h : ∀ x, x ∈ cache → x ∈ cache2) :
    unloadedCount fs cache2 ≤ unloadedCount fs cache := by
  induction fs with
  | nil => exact Nat.le_refl _
  | cons q fs' ih =>
    rw [unloadedCount_cons, unloadedCount_cons]
    by_cases h2 : q.1 ∈ cache2
    · by_cases h1 : q.1 ∈ cache <;> simp [h1, h2] <;> omega
    · have h1 : q.1 ∉ cache := fun hx => h2 (h _ hx)
      simp [h1, h2]
      omega

theorem lookupFs_cons_of_ne (q : String × Nat) (fs : List (String × Nat)) (p : String)
    (h : q.1 ≠ p) : lookupFs (q :: fs) p = lookupFs fs p := by
  unfold lookupFs
  rw [List.find?_cons_of_neg]
  simp [h]

theorem unloadedCount_append_lt (fs : List (String × Nat)) (cache : List String)
    (p : String) (b : Nat) (hl : lookupFs fs p = some b) (hc : p ∉ cache) :
    unloadedCount fs (cache ++ [p]) < unloadedCount fs cache := by
  induction fs with
  | nil => simp [lookupFs] at hl
  | cons q fs' ih =>
    rw [unloadedCount_cons, unloadedCount_cons]
    by_cases hq : q.1 = p
    · have h1 : q.1 ∉ cache := by rw [hq]; exact hc
      have h2 : q.1 ∈ cache ++ [p] := by simp [hq]
      rw [if_pos h2, if_neg h1]
      have hm := unloadedCount_mono fs' cache (cache ++ [p])
        (fun x hx => List.mem_append.mpr (Or.inl hx))
      omega
    · have hsame : (q.1 ∈ cache ++ [p]) ↔ (q.1 ∈ cache) := by
        simp [List.mem_append, hq]
      have hl' : lookupFs fs' p = some b := by
        rw [lookupFs_cons_of_ne q fs' p hq] at hl
        exact hl
      have := ih hl'
      by_cases h1 : q.1 ∈ cache
      · rw [if_pos h1, if_pos (hsame.mpr h1)]
        omega
      · have h2 : q.1 ∉ cache ++ [p] := fun hx => h1 (hsame.mp hx)
        rw [if_neg h1, if_neg h2]
        omega

theorem searchExts_found (fs : List (String × Nat)) (cache : List String)
    (dir name : String) :
    ∀ (exts : List String) (p : String) (b : Nat),
      searchExts fs cache dir name exts = some (p, b) →
      p ∉ cache ∧ lookupFs fs p = some b := by
  intro exts
  induction exts with
  | nil =>
    intro p b h
    exact absurd h (by simp [searchExts])
  | cons ext rest ih =>
    intro p b h
    unfold searchExts at h
    by_cases hc : mkCandidate dir name ext ∈ cache
    · rw [if_pos hc] at h
      exact ih p b h
    · rw [if_neg hc] at h
      cases hl : lookupFs fs (mkCandidate dir name ext) with
      | some b0 =>
        rw [hl] at h
        simp only [Option.some.injEq, Prod.mk.injEq] at h
        obtain ⟨rfl, rfl⟩ := h
        exact ⟨hc, hl⟩
      | none =>
        rw [hl] at h
        exact ih p b h

theorem searchDirsFor_found (fs : List (String × Nat)) (cache : List String)
    (exts : List String) (name : String) :
    ∀ (dirs : List String) (p : String) (b : Nat),
      searchDirsFor fs cache exts name dirs = some (p, b) →
      p ∉ cache ∧ lookupFs fs p = some b := by
  intro dirs
  induction dirs with
  | nil =>
    intro p b h
    exact absurd h (by simp [searchDirsFor])
  | cons dir rest ih =>
    intro p b h
    unfold searchDirsFor at h
    cases hs : searchExts fs cache dir name exts with
    | some r =>
      rw [hs] at h
      simp only [Option.some.injEq] at h
      subst h
      exact searchExts_found fs cache dir name exts p b hs
    | none =>
      rw [hs] at h
      exact ih p b h

theorem discoverName_none (env : DiscEnv) (s : DiscState) (next : List String) (name : String)
    (h : searchDirsFor env.fs s.cache env.exts name env.dirs = none) :
    discoverName env s next name = (s, next) := by
  unfold discoverName
  rw [h]

theorem discoverName_cases (env : DiscEnv) (s : DiscState) (next : List String)
    (name : String) :
    discoverName env s next name = (s, next) ∨
    unloadedCount env.fs (discoverName env s next name).1.cache
      < unloadedCount env.fs s.cache := by
  cases hs : searchDirsFor env.fs s.cache env.exts name env.dirs with
  | none => exact Or.inl (discoverName_none env s next name hs)
  | some r =>
    right
    obtain ⟨p, b⟩ := r
    obtain ⟨hc, hl⟩ := searchDirsFor_found env.fs s.cache env.exts name env.dirs p b hs
    have hcache : (discoverName env s next name).1.cache = s.cache ++ [p] := by
      unfold discoverName
      rw [hs]
    rw [hcache]
    exact unloadedCount_append_lt env.fs s.cache p b hl hc

theorem discoverRound_fold (env : DiscEnv) :
    ∀ (missing : List String) (s : DiscState) (next0 : List String),
      unloadedCount env.fs
          (missing.foldl (fun acc n => discoverName env acc.1 acc.2 n) (s, next0)).1.cache
        ≤ unloadedCount env.fs s.cache ∧
      ((missing.foldl (fun acc n => discoverName env acc.1 acc.2 n) (s, next0)).2 = next0 ∨
        unloadedCount env.fs
            (missing.foldl (fun acc n => discoverName env acc.1 acc.2 n) (s, next0)).1.cache
          < unloadedCount env.fs s.cache) := by
  intro missing
  induction missing with
  | nil =>
    intro s next0
    exact ⟨Nat.le_refl _, Or.inl rfl⟩
  | cons name rest ih =>
    intro s next0
    rw [List.foldl_cons]
    rcases discoverName_cases env s next0 name with h | h
    · dsimp only
      rw [h]
      exact ih s next0
    · obtain ⟨ih1, ih2⟩ := ih (discoverName env s next0 name).1 (discoverName env s next0 name).2
      constructor
      · exact Nat.le_trans ih1 (Nat.le_of_lt h)
      · exact Or.inr (Nat.lt_of_le_of_lt ih1 h)

theorem discoverRound_progress (env : DiscEnv) (s : DiscState) (missing : List String)
    (hne : (discoverRound env s missing).2 ≠ []) :
    unloadedCount env.fs (discoverRound env s missing).1.cache
      < unloadedCount env.fs s.cache := by
  obtain ⟨h1, h2⟩ := discoverRound_fold env missing s []
  rcases h2 with h2 | h2
  · exact absurd h2 hne
  · exact h2

theorem discoverLoopFuel_isSome (env : DiscEnv) :
    ∀ (fuel : Nat) (s : DiscState) (missing : List String),
      unloadedCount env.fs s.cache + 1 ≤ fuel →
      (discoverLoopFuel env fuel s missing).isSome = true := by
  intro fuel
  induction fuel with
  | zero =>
    intro s missing h
    exact absurd h (by omega)
  | succ n ih =>
    intro s missing h
    unfold discoverLoopFuel
    by_cases he : (discoverRound env s missing).2.isEmpty
    · rw [if_pos he]
      rfl
    · rw [if_neg he]
      apply ih
      have hne : (discoverRound env s missing).2 ≠ [] := by
        intro hx
        rw [hx] at he
        exact he rfl
      have := discoverRound_progress env s missing hne
      omega

theorem searchExts_none_of_nofile (fs : List (String × Nat)) (cache : List String)
    (dir name : String) :
    ∀ (exts : List String),
      (∀ e ∈ exts, lookupFs fs (mkCandidate dir name e) = none) →
      searchExts fs cache dir name exts = none := by
  intro exts
  induction exts with
  | nil => intro _; rfl
  | cons ext rest ih =>
    intro h
    unfold searchExts
    by_cases hc : mkCandidate dir name ext ∈ cache
    · rw [if_pos hc]
      exact ih (fun e he => h e (List.mem_cons_of_mem ext he))
    · rw [if_neg hc, h ext (List.mem_cons_self ext rest)]
      exact ih (fun e he => h e (List.mem_cons_of_mem ext he))

theorem searchDirsFor_none_of_nofile (fs : List (String × Nat)) (cache : List String)
    (exts : List String) (name : String) :
    ∀ (dirs : List String),
      (∀ d ∈ dirs, ∀ e ∈ exts, lookupFs fs (mkCandidate d name e) = none) →
      searchDirsFor fs cache exts name dirs = none := by
  intro dirs
  induction dirs with
  | nil => intro _; rfl
  | cons dir rest ih =>
    intro h
    unfold searchDirsFor
    rw [searchExts_none_of_nofile fs cache dir name exts (h dir (List.mem_cons_self dir rest))]
    exact ih (fun d hd => h d (List.mem_cons_of_mem dir hd))

theorem discoverRound_none (env : DiscEnv) (s : DiscState) :
    ∀ (missing : List String),
      (∀ n ∈ missing, searchDirsFor env.fs s.cache env.exts n env.dirs = none) →
      discoverRound env s missing = (s, []) := by
  have key : ∀ (missing : List String),
      (∀ n ∈ missing, searchDirsFor env.fs s.cache env.exts n env.dirs = none) →
      missing.foldl (fun acc n => discoverName env acc.1 acc.2 n) (s, []) = (s, []) := by
    intro missing
    induction missing with
    | nil => intro _; rfl
    | cons n rest ih =>
      intro h
      rw [List.foldl_cons]
      dsimp only
      rw [discoverName_none env s [] n (h n (List.mem_cons_self n rest))]
      exact ih (fun m hm => h m (List.mem_cons_of_mem n hm))
  intro missing h
  exact key missing h

/-- C7: the discovery loop terminates on every finite filesystem: fuel
exceeding the number of not-yet-cached filesystem entries always makes
the bounded loop return a result (each recursion step strictly shrinks
that count); a name with no corresponding file in any search-directory
and extension combination makes the per-name search fail and
contributes nothing — its processing changes neither the state nor the
next-round set, and no file is loaded for it; and a round in which
every name's search fails (no new file loaded) produces an empty
next-round set, so the loop exits. -/
theorem C7_fixpoint_terminates :
    (∀ (env : DiscEnv) (fuel : Nat) (s : DiscState) (missing : List String),
      unloadedCount env.fs s.cache + 1 ≤ fuel →
      (discoverLoopFuel env fuel s missing).isSome = true) ∧
    (∀ (env : DiscEnv) (s : DiscState) (next : List String) (name : String),
      (∀ d ∈ env.dirs, ∀ e ∈ env.exts, lookupFs env.fs (mkCandidate d name e) = none) →
      searchDirsFor env.fs s.cache env.exts name env.dirs = none ∧
      discoverName env s next name = (s, next)) ∧
    (∀ (env : DiscEnv) (s : DiscState) (missing : List String),
      (∀ n ∈ missing, searchDirsFor env.fs s.cache env.exts n env.dirs = none) →
      discoverRound env s missing = (s, [])) := by
  refine ⟨discoverLoopFuel_isSome, ?_, discoverRound_none⟩
  intro env s next name h
  have hs : searchDirsFor env.fs s.cache env.exts name env.dirs = none :=
    searchDirsFor_none_of_nofile env.fs s.cache env.exts name env.dirs h
  exact ⟨hs, discoverName_none env s next name hs⟩

/-- C7 witness: on an empty filesystem with one search directory, the
loop over the unresolvable name "m" returns after one round, the search
for "m" fails, and the round leaves the state unchanged with an empty
next-round set. -/
theorem C7_witness :
    (discoverLoopFuel ⟨[], ["d"], [".v"], [], fun _ => [], fun _ => []⟩ 1
        ⟨[], [], []⟩ ["m"]).isSome = true ∧
    discoverName ⟨[], ["d"], [".v"], [], fun _ => [], fun _ => []⟩
        ⟨[], [], []⟩ [] "m" = (⟨[], [], []⟩, []) ∧
    discoverRound ⟨[], ["d"], [".v"], [], fun _ => [], fun _ => []⟩
        ⟨[], [], []⟩ ["m"] = (⟨[], [], []⟩, []) := by
  refine ⟨?_, ?_, ?_⟩
  · exact C7_fixpoint_terminates.1 ⟨[], ["d"], [".v"], [], fun _ => [], fun _ => []⟩ 1
      ⟨[], [], []⟩ ["m"] (by decide)
  · exact (C7_fixpoint_terminates.2.1 ⟨[], ["d"], [".v"], [], fun _ => [], fun _ => []⟩
      ⟨[], [], []⟩ [] "m" (by decide)).2
  · exact C7_fixpoint_terminates.2.2 ⟨[], ["d"], [".v"], [], fun _ => [], fun _ => []⟩
      ⟨[], [], []⟩ ["m"] (by decide)

theorem find?_append_eq {α : Type} (f : α → Bool) (l1 l2 : List α) :
    (l1 ++ l2).find? f =
      match l1.find? f with
      | some a => some a
      | none => l2.find? f := by
  induction l1 with
  | nil => rfl
  | cons a l1' ih =>
    simp only [List.cons_append, List.find?]
    cases f a <;> simp [ih]

theorem searchExts_spec (fs : List (String × Nat)) (cache : List String)
    (dir name : String) :
    ∀ (exts : List String),
      (searchExts fs cache dir name exts).map Prod.fst
        = (exts.map (fun e => mkCandidate dir name e)).find?
            (fun p => !(decide (p ∈ cache)) && (lookupFs fs p).isSome) := by
  intro exts
  induction exts with
  | nil => rfl
  | cons ext rest ih =>
    unfold searchExts
    simp only [List.map_cons]
    by_cases hc : mkCandidate dir name ext ∈ cache
    · rw [if_pos hc, List.find?_cons_of_neg _ (by simp [hc])]
      exact ih
    · rw [if_neg hc]
      cases hl : lookupFs fs (mkCandidate dir name ext) with
      | some b =>
        rw [List.find?_cons_of_pos _ (by simp [hc, hl])]
        rfl
      | none =>
        rw [List.find?_cons_of_neg _ (by simp [hc, hl])]
        exact ih

theorem searchDirsFor_spec (fs : List (String × Nat)) (cache : List String)
    (exts : List String) (name : String) :
    ∀ (dirs : List String),
      (searchDirsFor fs cache exts name dirs).map Prod.fst
        = (candidatePaths dirs exts name).find?
            (fun p => !(decide (p ∈ cache)) && (lookupFs fs p).isSome) := by
  intro dirs
  induction dirs with
  | nil => rfl
  | cons dir rest ih =>
    unfold searchDirsFor candidatePaths
    rw [List.flatMap_cons, find?_append_eq]
    cases hs : searchExts fs cache dir name exts with
    | some r =>
      have := searchExts_spec fs cache dir name exts
      rw [hs] at this
      rw [← this]
      rfl
    | none =>
      have := searchExts_spec fs cache dir name exts
      rw [hs] at this
      rw [← this]
      exact ih

theorem discoverName_trees (env : DiscEnv) (s : DiscState) (next : List String)
    (name : String) :
    ∃ extra : List ModelTree,
      (discoverName env s next name).1.trees = s.trees ++ extra ∧
      ∀ t ∈ extra, ∃ b, t = ModelTree.fromBuffer b env.inherited true := by
  cases hs : searchDirsFor env.fs s.cache env.exts name env.dirs with
  | none =>
    refine ⟨[], ?_, by simp⟩
    rw [discoverName_none env s next name hs]
    simp
  | some r =>
    obtain ⟨p, b⟩ := r
    refine ⟨[ModelTree.fromBuffer b env.inherited true], ?_, ?_⟩
    · unfold discoverName
      rw [hs]
    · intro t ht
      simp only [List.mem_singleton] at ht
      exact ⟨b, ht⟩

theorem discoverRound_trees (env : DiscEnv) :
    ∀ (missing : List String) (acc : DiscState × List String),
      ∃ extra : List ModelTree,
        (missing.foldl (fun a n => discoverName env a.1 a.2 n) acc).1.trees
          = acc.1.trees ++ extra ∧
        ∀ t ∈ extra, ∃ b, t = ModelTree.fromBuffer b env.inherited true := by
  intro missing
  induction missing with
  | nil =>
    intro acc
    exact ⟨[], by simp, by simp⟩
  | cons name rest ih =>
    intro acc
    rw [List.foldl_cons]
    obtain ⟨e1, he1, hs1⟩ := discoverName_trees env acc.1 acc.2 name
    obtain ⟨e2, he2, hs2⟩ := ih (discoverName env acc.1 acc.2 name)
    refine ⟨e1 ++ e2, ?_, ?_⟩
    · rw [he2, he1, List.append_assoc]
    · intro t ht
      rcases List.mem_append.mp ht with h | h
      · exact hs1 t h
      · exact hs2 t h

theorem discoverRound_trees' (env : DiscEnv) (s : DiscState) (missing : List String) :
    ∃ extra : List ModelTree,
      (discoverRound env s missing).1.trees = s.trees ++ extra ∧
      ∀ t ∈ extra, ∃ b, t = ModelTree.fromBuffer b env.inherited true := by
  obtain ⟨e, h1, h2⟩ := discoverRound_trees env missing (s, [])
  exact ⟨e, h1, h2⟩

theorem discoverLoopFuel_trees (env : DiscEnv) :
    ∀ (fuel : Nat) (s : DiscState) (missing : List String) (s' : DiscState),
      discoverLoopFuel env fuel s missing = some s' →
      ∃ extra : List ModelTree,
        s'.trees = s.trees ++ extra ∧
        ∀ t ∈ extra, ∃ b, t = ModelTree.fromBuffer b env.inherited true := by
  intro fuel
  induction fuel with
  | zero =>
    intro s missing s' h
    exact absurd h (by simp [discoverLoopFuel])
  | succ n ih =>
    intro s missing s' h
    unfold discoverLoopFuel at h
    by_cases he : (discoverRound env s missing).2.isEmpty
    · rw [if_pos he] at h
      simp only [Option.some.injEq] at h
      subst h
      exact discoverRound_trees' env s missing
    · rw [if_neg he] at h
      obtain ⟨e2, he2, hs2⟩ := ih (discoverRound env s missing).1
        (discoverRound env s missing).2 s' h
      obtain ⟨e1, he1, hs1⟩ := discoverRound_trees' env s missing
      refine ⟨e1 ++ e2, ?_, ?_⟩
      · rw [he2, he1, List.append_assoc]
      · intro t ht
        rcases List.mem_append.mp ht with ht | ht
        · exact hs1 t ht
        · exact hs2 t ht

/-- C8: the discovery phase engages only when at least one search
directory is registered (with none, `loadAndParseSources` returns the
per-file phase's trees unchanged); the per-name search tries the
candidate paths in registration order — directories outermost,
extensions innermost — and accepts exactly the first candidate that is
not already cached and reads successfully (returning that file's
buffer); and every tree the discovery loop adds beyond the input trees
is parsed from its buffer with the finalized inherited-macro list and
is marked as a library tree unconditionally. -/
theorem C8_search_order_and_library_marking :
    (∀ (minFiles : Nat) (read : String → Option String → Except Nat Nat)
        (dm : List Nat → List Nat) (opts : SourceOptionsM) (errs0 : List (String × Nat))
        (entries : List FileEntry) (env : DiscEnv) (initCache : List String),
      env.dirs = [] →
      loadAndParseSources minFiles read dm opts errs0 entries env initCache
        = (phase1 minFiles read dm opts errs0 entries).1.trees) ∧
    (∀ (fs : List (String × Nat)) (cache : List String) (exts : List String)
        (name : String) (dirs : List String),
      (searchDirsFor fs cache exts name dirs).map Prod.fst
        = (candidatePaths dirs exts name).find?
            (fun p => !(decide (p ∈ cache)) && (lookupFs fs p).isSome) ∧
      (∀ (p : String) (b : Nat), searchDirsFor fs cache exts name dirs = some (p, b) →
        p ∉ cache ∧ lookupFs fs p = some b)) ∧
    (∀ (env : DiscEnv) (fuel : Nat) (s : DiscState) (missing : List String)
        (s' : DiscState),
      discoverLoopFuel env fuel s missing = some s' →
      ∃ extra : List ModelTree,
        s'.trees = s.trees ++ extra ∧
        ∀ t ∈ extra, ∃ b, t = ModelTree.fromBuffer b env.inherited true) := by
  refine ⟨?_, ?_, discoverLoopFuel_trees⟩
  · intro minFiles read dm opts errs0 entries env initCache hdirs
    unfold loadAndParseSources
    rw [hdirs]
    simp
  · intro fs cache exts name dirs
    exact ⟨searchDirsFor_spec fs cache exts name dirs,
      fun p b h => searchDirsFor_found fs cache exts name dirs p b h⟩

/-- C8 witness: with one directory and one extension, an existing
uncached candidate "d/m.v" is found and loaded by one discovery round,
and the single added tree carries the inherited-macro list [7] and the
library mark; with no search directory the pipeline output is the
per-file trees. -/
theorem C8_witness :
    loadAndParseSources 4 (fun _ _ => Except.error 0) (fun _ => [])
        ⟨false, false, false, none⟩ [] [] ⟨[], [], [".v"], [], fun _ => [], fun _ => []⟩ []
      = (phase1 4 (fun _ _ => Except.error 0) (fun _ => [])
          ⟨false, false, false, none⟩ [] []).1.trees ∧
    (∃ extra : List ModelTree,
      (⟨["d/m.v"], [], [ModelTree.fromBuffer 5 [7] true]⟩ : DiscState).trees
        = ([] : List ModelTree) ++ extra ∧
      ∀ t ∈ extra, ∃ b, t = ModelTree.fromBuffer b
        (DiscEnv.inherited ⟨[("d/m.v", 5)], ["d"], [".v"], [7], fun _ => [], fun _ => []⟩)
        true) := by
  constructor
  · exact C8_search_order_and_library_marking.1 4 (fun _ _ => Except.error 0) (fun _ => [])
      ⟨false, false, false, none⟩ [] [] ⟨[], [], [".v"], [], fun _ => [], fun _ => []⟩ [] rfl
  · exact C8_search_order_and_library_marking.2.2
      ⟨[("d/m.v", 5)], ["d"], [".v"], [7], fun _ => [], fun _ => []⟩ 2
      ⟨[], [], []⟩ ["m"] ⟨["d/m.v"], [], [ModelTree.fromBuffer 5 [7] true]⟩ (by decide)

end SlangLoader
